import Mathlib

/-!
# Verification of the `datacsv` record store (`src/datacsv.py`)

A shallow embedding of the CSV-backed record store `CSVDatabase`:

* the row codec is Python's `csv` module in its default (excel) dialect:
  `QUOTE_MINIMAL` quoting on write (a field is quoted iff it contains the
  delimiter `,`, the quote character `"` or a line-terminator character
  `\r`/`\n`; quote characters are doubled), line terminator `"\r\n"`, and a
  character-level reader state machine mirroring `_csv.c` (non-strict);
  blank rows, which `csv.DictReader` skips, are never produced by the
  embedded parser, matching the records `DictReader` yields;
* `DictReader` zips the file's header row with each data row (`restval`
  `None` for short rows); `DictWriter` with `extrasaction="raise"` rejects
  any key outside the declared field names and writes `None` as the empty
  string;
* files are `String`s; a missing file is `Option.none` where an operation's
  behaviour on a missing file matters; fallible operations return `Except`.

Records handed to the operations (`dict`s in Python) are association lists
`List (String × String)`; records read back from the file are
`Rec = List (String × Option String)` (a value can be the `restval`
`None`).  The embedded writer models a raised exception as an
`Except.error`; the truncation of the backing file that a mid-rewrite
exception leaves behind is not modelled.
-/

namespace CSVDatabase

/-- The distinct error conditions the store can raise (Python raises
`ValueError`/`TypeError`; the spec names them individually). -/
inductive Err where
  | emptyRecord
  | missingFields
  | unexpectedFields
  | invalidArgument
  | invalidCondition
  | emptyCondition
  | invalidConditionKey
  | invalidConditionType
  | writerUnexpectedFields
  | fileNotFound
  deriving DecidableEq, Repr

/-- Decidable equality of fallible results, so that concrete runs of the
operations can be checked by evaluation. -/
instance {ε α : Type} [DecidableEq ε] [DecidableEq α] : DecidableEq (Except ε α) := fun a b =>
  match a, b with
  | Except.error e, Except.error e2 =>
    if h : e = e2 then Decidable.isTrue (by rw [h])
    else Decidable.isFalse (fun hc => h (Except.error.inj hc))
  | Except.error _, Except.ok _ => Decidable.isFalse (fun hc => Except.noConfusion hc)
  | Except.ok _, Except.error _ => Decidable.isFalse (fun hc => Except.noConfusion hc)
  | Except.ok x, Except.ok y =>
    if h : x = y then Decidable.isTrue (by rw [h])
    else Decidable.isFalse (fun hc => h (Except.ok.inj hc))

/-- A character the excel dialect must quote: delimiter, quote char, or a
line-terminator character. -/
def isSpecial (c : Char) : Bool := c = ',' || c = '"' || c = '\r' || c = '\n'

/-- Minimal quoting: a field is quoted iff it contains a special character. -/
def needsQuote (s : String) : Bool := s.data.any isSpecial

/-- Double every quote character (dialect has `doublequote = True`). -/
def escList : List Char → List Char
  | [] => []
  | c :: cs => if c = '"' then '"' :: '"' :: escList cs else c :: escList cs

/-- Serialize one field under `QUOTE_MINIMAL`. -/
def fieldChars (v : String) : List Char :=
  if needsQuote v then '"' :: (escList v.data ++ ['"']) else v.data

/-- Join serialized fields with the delimiter `,`. -/
def sepJoin : List (List Char) → List Char
  | [] => []
  | [f] => f
  | f :: g :: fs => f ++ ',' :: sepJoin (g :: fs)

/-- Serialize one row: delimiter-joined fields plus the terminator `\r\n`.
`_csv.c` special-cases a record of a single empty field: it is written as a
quoted empty field `""` (never as a blank line). -/
def rowChars (vals : List String) : List Char :=
  let body := sepJoin (vals.map fieldChars)
  if 0 < vals.length ∧ body = [] then '"' :: '"' :: ['\r', '\n']
  else body ++ ['\r', '\n']

/-- One serialized row as a string (what `csv.writer.writerow` appends). -/
def writeRow (vals : List String) : String := ⟨rowChars vals⟩

/-- The canonical serialization of a whole store: header row, then one row
per record, exactly as the store's writers produce it. -/
def serializeFile (h : List String) (rows : List (List String)) : String :=
  writeRow h ++ String.join (rows.map writeRow)

/-- States of the `_csv.c` reader state machine.  `startRecord` also plays
the role of `EAT_CRNL` (both skip `\r`/`\n` and otherwise begin a field),
which also makes blank rows vanish, exactly as `csv.DictReader` skips
every `[]` row it gets from the underlying reader. -/
inductive PState where
  | startRecord
  | startField
  | inField
  | inQuoted
  | quoteInQuoted
  deriving DecidableEq, Repr

/-- A line-terminator character. -/
def isCrnl (c : Char) : Bool := c = '\r' || c = '\n'

/-- The reader state machine over the raw character stream.  `field` is the
current field buffer, `record` the fields of the current record, `acc` the
completed records.  Mirrors `parse_process_char` of `_csv.c` in the excel
dialect with `strict=False` (a quote inside an unquoted field is literal;
after a closing quote, further characters continue the field). -/
def parseAux : List Char → PState → List Char → List String → List (List String) →
    List (List String)
  | [], PState.startRecord, _, _, acc => acc
  | [], PState.startField, field, record, acc => acc ++ [record ++ [⟨field⟩]]
  | [], PState.inField, field, record, acc => acc ++ [record ++ [⟨field⟩]]
  | [], PState.inQuoted, field, record, acc => acc ++ [record ++ [⟨field⟩]]
  | [], PState.quoteInQuoted, field, record, acc => acc ++ [record ++ [⟨field⟩]]
  | c :: cs, PState.startRecord, field, record, acc =>
    if isCrnl c then parseAux cs PState.startRecord field record acc
    else if c = ',' then parseAux cs PState.startField [] (record ++ [⟨field⟩]) acc
    else if c = '"' then parseAux cs PState.inQuoted field record acc
    else parseAux cs PState.inField (field ++ [c]) record acc
  | c :: cs, PState.startField, field, record, acc =>
    if isCrnl c then parseAux cs PState.startRecord [] [] (acc ++ [record ++ [⟨field⟩]])
    else if c = ',' then parseAux cs PState.startField [] (record ++ [⟨field⟩]) acc
    else if c = '"' then parseAux cs PState.inQuoted field record acc
    else parseAux cs PState.inField (field ++ [c]) record acc
  | c :: cs, PState.inField, field, record, acc =>
    if isCrnl c then parseAux cs PState.startRecord [] [] (acc ++ [record ++ [⟨field⟩]])
    else if c = ',' then parseAux cs PState.startField [] (record ++ [⟨field⟩]) acc
    else parseAux cs PState.inField (field ++ [c]) record acc
  | c :: cs, PState.inQuoted, field, record, acc =>
    if c = '"' then parseAux cs PState.quoteInQuoted field record acc
    else parseAux cs PState.inQuoted (field ++ [c]) record acc
  | c :: cs, PState.quoteInQuoted, field, record, acc =>
    if c = '"' then parseAux cs PState.inQuoted (field ++ ['"']) record acc
    else if c = ',' then parseAux cs PState.startField [] (record ++ [⟨field⟩]) acc
    else if isCrnl c then parseAux cs PState.startRecord [] [] (acc ++ [record ++ [⟨field⟩]])
    else parseAux cs PState.inField (field ++ [c]) record acc

/-- Parse a whole file into its rows (what iterating `csv.reader` yields,
minus the blank rows `DictReader` discards). -/
def parseCsv (s : String) : List (List String) :=
  parseAux s.data PState.startRecord [] [] []

/-- A record as `DictReader` yields it: field name to stored value, where a
value of `Option.none` is the `restval` `None` of a short row. -/
abbrev Rec := List (String × Option String)

/-- The reader's zip of the header row with one data row: missing fields
get `restval = None`; surplus values (filed under the `restkey`) are not
retrievable by a field name and are dropped. -/
def zipRecord : List String → List String → Rec
  | [], _ => []
  | k :: h, [] => (k, Option.none) :: zipRecord h []
  | k :: h, v :: r => (k, Option.some v) :: zipRecord h r

/-- Lookup `row.get(k)`: `None` both for an absent key and for a stored `None`. -/
def rowGet (r : Rec) (k : String) : Option String :=
  match r.find? (fun p => p.1 == k) with
  | Option.some p => p.2
  | Option.none => Option.none

/-- Lookup `dict.get` on an input record. -/
def dictGet (d : List (String × String)) (k : String) : Option String :=
  match d.find? (fun p => p.1 == k) with
  | Option.some p => Option.some p.2
  | Option.none => Option.none

/-- All records of a file: the first parsed row is the header
(`DictReader.fieldnames`), every later row is zipped against it. -/
def readRecords (s : String) : List Rec :=
  match parseCsv s with
  | [] => []
  | hdr :: rows => rows.map (zipRecord hdr)

/-- One row through `DictWriter.writerow` with `extrasaction="raise"`: reject a record with
a key outside the declared field names, else write the record's values in
field order, `None` (and absent fields, `restval`) as the empty string. -/
def writeRecord (h : List String) (r : Rec) : Except Err String :=
  if r.any (fun p => !(h.contains p.1)) then Except.error Err.writerUnexpectedFields
  else Except.ok (writeRow (h.map (fun f => (rowGet r f).getD "")))

/-- The rewrite phase of `update`/`delete`/`delete_where`: truncate, write
the header, then every record through `DictWriter`. -/
def rewriteFile (h : List String) (recs : List Rec) : Except Err String :=
  match recs.mapM (writeRecord h) with
  | Except.error e => Except.error e
  | Except.ok lines => Except.ok (writeRow h ++ String.join lines)

/-- Operation `insert` (src/datacsv.py lines 37-74): reject an empty record; with
`fill_missing` rebuild the record over the schema keys with `""` defaults
(which also drops any other key), otherwise reject missing schema keys;
then reject extra keys; finally append one row through `DictWriter`. -/
def insert (h : List String) (file : String) (row0 : List (String × String))
    (fill : Bool) : Except Err (String × Bool) :=
  if row0.isEmpty then Except.error Err.emptyRecord
  else
    let step : Except Err (List (String × String)) :=
      if fill then Except.ok (h.map (fun k => (k, (dictGet row0 k).getD "")))
      else if h.any (fun k => !((row0.map Prod.fst).contains k)) then
        Except.error Err.missingFields
      else Except.ok row0
    match step with
    | Except.error e => Except.error e
    | Except.ok row =>
      if row.any (fun p => !(h.contains p.1)) then Except.error Err.unexpectedFields
      else
        match writeRecord h (row.map (fun p => (p.1, Option.some p.2))) with
        | Except.error e => Except.error e
        | Except.ok line => Except.ok (file ++ line, true)

/-- Operation `find_all` (lines 77-84): every stored record, in file order. -/
def find_all (file : String) : List Rec := readRecords file

/-- Operation `find` (lines 88-101): falsy key or value is rejected; otherwise the
records whose `key` field equals `value`, in file order. -/
def find (file : String) (key value : String) : Except Err (List Rec) :=
  if key = "" || value = "" then Except.error Err.invalidArgument
  else Except.ok ((readRecords file).filter (fun r => rowGet r key == Option.some value))

/-- A condition: `None`, a mapping, a callable, or any other shape. -/
inductive Cond where
  | none
  | dict (m : List (String × String))
  | func (f : Rec → Bool)
  | other

/-- Every key of the condition mapping is a schema field. -/
def condKeysOk (h : List String) (m : List (String × String)) : Bool :=
  m.all (fun p => h.contains p.1)

/-- A record matches a mapping condition iff every key's stored value
equals the condition's value (string equality). -/
def matchesDict (m : List (String × String)) (r : Rec) : Bool :=
  m.all (fun p => rowGet r p.1 == Option.some p.2)

/-- Operation `find_where` (lines 104-150): `None` is rejected before the file is
opened; a callable filters the records; a mapping is validated (non-empty,
keys in schema) before any record is inspected, then filters; any other
shape is a type error. -/
def find_where (h : List String) (file : Option String) (cond : Cond) :
    Except Err (List Rec) :=
  match cond with
  | Cond.none => Except.error Err.invalidCondition
  | _ =>
    match file with
    | Option.none => Except.error Err.fileNotFound
    | Option.some s =>
      match cond with
      | Cond.none => Except.error Err.invalidCondition
      | Cond.func f => Except.ok ((readRecords s).filter f)
      | Cond.dict m =>
        if m.isEmpty then Except.error Err.emptyCondition
        else if !condKeysOk h m then Except.error Err.invalidConditionKey
        else Except.ok ((readRecords s).filter (matchesDict m))
      | Cond.other => Except.error Err.invalidConditionType

/-- Helper `_match` (lines 247-262): evaluated per record; a mapping condition is
validated here, each time, so its errors only surface when some record is
inspected.  `None` falls into the type-error branch. -/
def matchRec (h : List String) (cond : Cond) (r : Rec) : Except Err Bool :=
  match cond with
  | Cond.func f => Except.ok (f r)
  | Cond.dict m =>
    if m.isEmpty then Except.error Err.emptyCondition
    else if !condKeysOk h m then Except.error Err.invalidConditionKey
    else Except.ok (matchesDict m r)
  | Cond.none => Except.error Err.invalidConditionType
  | Cond.other => Except.error Err.invalidConditionType

/-- The read loop of `delete_where`: keep the records `_match` rejects,
note whether any matched; the first `_match` error aborts. -/
def matchPartition (h : List String) (cond : Cond) :
    List Rec → Except Err (List Rec × Bool)
  | [] => Except.ok ([], false)
  | r :: rs =>
    match matchRec h cond r with
    | Except.error e => Except.error e
    | Except.ok b =>
      match matchPartition h cond rs with
      | Except.error e => Except.error e
      | Except.ok (kept, rem) =>
        if b then Except.ok (kept, true) else Except.ok (r :: kept, rem)

/-- Operation `delete_where` (lines 153-190): `None` rejected up front; read all
records, drop the matching ones; rewrite only if something was removed,
else leave the file untouched; return whether anything was removed. -/
def delete_where (h : List String) (file : Option String) (cond : Cond) :
    Except Err (Option String × Bool) :=
  match cond with
  | Cond.none => Except.error Err.invalidCondition
  | _ =>
    match file with
    | Option.none => Except.error Err.fileNotFound
    | Option.some s =>
      match matchPartition h cond (readRecords s) with
      | Except.error e => Except.error e
      | Except.ok (kept, removed) =>
        if removed then
          match rewriteFile h kept with
          | Except.error e => Except.error e
          | Except.ok s2 => Except.ok (Option.some s2, true)
        else Except.ok (Option.some s, false)

/-- Python `dict.update`: keys already present are overwritten in place, new keys
are appended in the update's order. -/
def dictUpdate (r : Rec) (nd : List (String × String)) : Rec :=
  r.map (fun p =>
    match dictGet nd p.1 with
    | Option.some v => (p.1, Option.some v)
    | Option.none => p)
  ++ (nd.filter (fun q => !((r.map Prod.fst).contains q.1))).map
      (fun q => (q.1, Option.some q.2))

/-- Operation `update` (lines 195-216): merge `new_data` into every record whose
`key` field equals `value`; rewrite only if some record matched; return
whether any did.  No validation of `key`, `value` or `new_data`. -/
def update (h : List String) (file : String) (key : String) (value : Option String)
    (nd : List (String × String)) : Except Err (String × Bool) :=
  let recs := readRecords file
  let recs2 := recs.map (fun r => if rowGet r key == value then dictUpdate r nd else r)
  if recs.any (fun r => rowGet r key == value) then
    match rewriteFile h recs2 with
    | Except.error e => Except.error e
    | Except.ok s2 => Except.ok (s2, true)
  else Except.ok (file, false)

/-- Operation `delete` (lines 218-236): drop every record whose `key` field equals
`value`; rewrite only if some record matched; return whether any did.
No validation of the arguments. -/
def delete (h : List String) (file : String) (key : String) (value : Option String) :
    Except Err (String × Bool) :=
  let recs := readRecords file
  let kept := recs.filter (fun r => !(rowGet r key == value))
  if recs.any (fun r => rowGet r key == value) then
    match rewriteFile h kept with
    | Except.error e => Except.error e
    | Except.ok s2 => Except.ok (s2, true)
  else Except.ok (file, false)

/-- The state the reader is in right after consuming a serialized field:
a quoted field sits after its closing quote, a non-empty unquoted field is
mid-field, an empty field has consumed nothing. -/
def pendingState (v : String) : PState :=
  if needsQuote v then PState.quoteInQuoted
  else if v.data.isEmpty then PState.startField
  else PState.inField

/-- The values of a row after `update` merges `new_data` whose keys lie in
the schema: a field named in `new_data` takes its new value, every other
field keeps its stored value. -/
def mergeVals (h : List String) (r : List String) (nd : List (String × String)) :
    List String :=
  (h.zip r).map (fun p =>
    match dictGet nd p.1 with
    | Option.some v => v
    | Option.none => p.2)

/-! ## Parsing the canonical serialization back -/

theorem mk_data (v : String) : String.mk v.data = v := rfl

theorem special_facts {c : Char} (hc : isSpecial c = false) :
    isCrnl c = false ∧ ¬(c = ',') ∧ ¬(c = '"') := by
  simp only [isSpecial, Bool.or_eq_false_iff, decide_eq_false_iff_not] at hc
  obtain ⟨⟨⟨h1, h2⟩, h3⟩, h4⟩ := hc
  refine ⟨?_, h1, h2⟩
  simp [isCrnl, h3, h4]

theorem parseAux_inField_run (l : List Char) (hl : ∀ c ∈ l, isSpecial c = false) :
    ∀ (rest field : List Char) (record : List String) (acc : List (List String)),
    parseAux (l ++ rest) PState.inField field record acc
      = parseAux rest PState.inField (field ++ l) record acc := by
  induction l with
  | nil => intro rest field record acc; simp
  | cons c cs ih =>
    intro rest field record acc
    obtain ⟨h1, h2, _⟩ := special_facts (hl c (List.mem_cons_self c cs))
    have step : parseAux ((c :: cs) ++ rest) PState.inField field record acc
        = parseAux (cs ++ rest) PState.inField (field ++ [c]) record acc := by
      simp [parseAux, h1, h2]
    rw [step, ih (fun x hx => hl x (List.mem_cons_of_mem c hx))]
    simp

theorem parseAux_escList_run (l : List Char) :
    ∀ (rest field : List Char) (record : List String) (acc : List (List String)),
    parseAux (escList l ++ rest) PState.inQuoted field record acc
      = parseAux rest PState.inQuoted (field ++ l) record acc := by
  induction l with
  | nil => intro rest field record acc; simp [escList]
  | cons c cs ih =>
    intro rest field record acc
    by_cases hc : c = '"'
    · subst hc
      have hstream : escList ('"' :: cs) ++ rest = '"' :: '"' :: (escList cs ++ rest) := by
        simp [escList]
      rw [hstream]
      have s1 : parseAux ('"' :: '"' :: (escList cs ++ rest)) PState.inQuoted field record acc
          = parseAux (escList cs ++ rest) PState.inQuoted (field ++ ['"']) record acc := by
        simp [parseAux]
      rw [s1, ih]
      simp
    · have hstream : escList (c :: cs) ++ rest = c :: (escList cs ++ rest) := by
        simp [escList, hc]
      rw [hstream]
      have s1 : parseAux (c :: (escList cs ++ rest)) PState.inQuoted field record acc
          = parseAux (escList cs ++ rest) PState.inQuoted (field ++ [c]) record acc := by
        simp [parseAux, hc]
      rw [s1, ih]
      simp

theorem parseAux_field_run (v : String) (rest : List Char) (record : List String)
    (acc : List (List String)) :
    parseAux (fieldChars v ++ rest) PState.startField [] record acc
      = parseAux rest (pendingState v) v.data record acc := by
  by_cases hq : needsQuote v = true
  · simp only [fieldChars, pendingState, hq, if_true]
    have s1 : parseAux (('"' :: (escList v.data ++ ['"'])) ++ rest)
        PState.startField [] record acc
        = parseAux ((escList v.data ++ ['"']) ++ rest) PState.inQuoted [] record acc := by
      simp [parseAux, isCrnl]
    rw [s1, List.append_assoc, parseAux_escList_run]
    simp [parseAux, isCrnl]
  · have hq' : needsQuote v = false := by simpa using hq
    have hspec : ∀ c ∈ v.data, isSpecial c = false := by
      simpa [needsQuote, List.any_eq_false] using hq'
    simp only [fieldChars, pendingState, hq', if_false, Bool.false_eq_true]
    cases hd : v.data with
    | nil => simp [hd]
    | cons d ds =>
      have hdspec := special_facts (hspec d (by rw [hd]; exact List.mem_cons_self d ds))
      have s1 : parseAux ((d :: ds) ++ rest) PState.startField [] record acc
          = parseAux (ds ++ rest) PState.inField [d] record acc := by
        simp [parseAux, hdspec.1, hdspec.2.1, hdspec.2.2]
      rw [s1, parseAux_inField_run ds (fun x hx => hspec x (by rw [hd]; exact List.mem_cons_of_mem d hx))]
      simp [hd]

theorem parseAux_pending_comma (v : String) (rest : List Char) (record : List String)
    (acc : List (List String)) :
    parseAux (',' :: rest) (pendingState v) v.data record acc
      = parseAux rest PState.startField [] (record ++ [v]) acc := by
  unfold pendingState
  split_ifs with h1 h2 <;> simp [parseAux, isCrnl, mk_data]

theorem parseAux_pending_crnl (v : String) (c : Char) (hc : isCrnl c = true)
    (rest : List Char) (record : List String) (acc : List (List String)) :
    parseAux (c :: rest) (pendingState v) v.data record acc
      = parseAux rest PState.startRecord [] [] (acc ++ [record ++ [v]]) := by
  have hcq : ¬(c = '"') := by
    intro h; subst h; simp [isCrnl] at hc
  have hcc : ¬(c = ',') := by
    intro h; subst h; simp [isCrnl] at hc
  unfold pendingState
  split_ifs with h1 h2 <;> simp [parseAux, hc, hcq, hcc, mk_data]

theorem fieldChars_head_not_crnl (v : String) (d : Char) (ds : List Char)
    (hds : fieldChars v = d :: ds) : isCrnl d = false := by
  unfold fieldChars at hds
  by_cases hq : needsQuote v = true
  · rw [hq, if_pos rfl] at hds
    cases hds
    simp [isCrnl]
  · have hq' : needsQuote v = false := by simpa using hq
    rw [hq'] at hds
    simp only [Bool.false_eq_true, if_false] at hds
    have hspec : ∀ c ∈ v.data, isSpecial c = false := by
      simpa [needsQuote, List.any_eq_false] using hq'
    have hd : isSpecial d = false := hspec d (by rw [hds]; exact List.mem_cons_self d ds)
    exact (special_facts hd).1

theorem sepJoin_head_not_crnl (vals : List String) (d : Char) (ds : List Char)
    (hds : sepJoin (vals.map fieldChars) = d :: ds) : isCrnl d = false := by
  match vals with
  | [] => simp [sepJoin] at hds
  | [v] =>
    simp only [List.map_cons, List.map_nil, sepJoin] at hds
    exact fieldChars_head_not_crnl v d ds hds
  | v :: w :: ws =>
    simp only [List.map_cons, sepJoin] at hds
    cases hf : fieldChars v with
    | nil =>
      rw [hf, List.nil_append] at hds
      cases hds
      simp [isCrnl]
    | cons e es =>
      rw [hf, List.cons_append] at hds
      injection hds with h1 h2
      subst h1
      exact fieldChars_head_not_crnl v e es hf

theorem sepJoin_fieldChars_nil (vals : List String) (hv : vals ≠ [])
    (hnil : sepJoin (vals.map fieldChars) = []) : vals = [""] := by
  match vals with
  | [] => exact absurd rfl hv
  | [v] =>
    simp only [List.map_cons, List.map_nil, sepJoin] at hnil
    unfold fieldChars at hnil
    by_cases hq : needsQuote v = true
    · rw [hq, if_pos rfl] at hnil
      cases hnil
    · have hq' : needsQuote v = false := by simpa using hq
      rw [hq'] at hnil
      simp only [Bool.false_eq_true, if_false] at hnil
      have : v = "" := by
        have := mk_data v
        rw [hnil] at this
        exact this.symm
      rw [this]
  | v :: w :: ws =>
    simp only [List.map_cons, sepJoin] at hnil
    exact absurd hnil (by simp)

theorem parseAux_startRecord_eq_startField (d : Char) (hd : isCrnl d = false)
    (t : List Char) (acc : List (List String)) :
    parseAux (d :: t) PState.startRecord [] [] acc
      = parseAux (d :: t) PState.startField [] [] acc := by
  simp [parseAux, hd]

theorem parseAux_row_crnl (vals : List String) (hv : vals ≠ []) (c : Char)
    (hc : isCrnl c = true) :
    ∀ (rest : List Char) (record : List String) (acc : List (List String)),
    parseAux ((sepJoin (vals.map fieldChars) ++ [c]) ++ rest) PState.startField [] record acc
      = parseAux rest PState.startRecord [] [] (acc ++ [record ++ vals]) := by
  induction vals with
  | nil => exact absurd rfl hv
  | cons v vs ih =>
    intro rest record acc
    cases vs with
    | nil =>
      simp only [List.map_cons, List.map_nil, sepJoin]
      rw [List.append_assoc, List.singleton_append, parseAux_field_run,
        parseAux_pending_crnl v c hc]
    | cons w ws =>
      have hsep : sepJoin ((v :: w :: ws).map fieldChars)
          = fieldChars v ++ ',' :: sepJoin ((w :: ws).map fieldChars) := by
        simp [sepJoin]
      rw [hsep]
      have hstream : ((fieldChars v ++ ',' :: sepJoin ((w :: ws).map fieldChars)) ++ [c]) ++ rest
          = fieldChars v ++ ',' :: ((sepJoin ((w :: ws).map fieldChars) ++ [c]) ++ rest) := by
        simp
      rw [hstream, parseAux_field_run, parseAux_pending_comma,
        ih (by simp) rest (record ++ [v]) acc]
      simp

theorem parseAux_rowChars_run (vals : List String) (hv : vals ≠ [])
    (rest : List Char) (acc : List (List String)) :
    parseAux (rowChars vals ++ rest) PState.startRecord [] [] acc
      = parseAux rest PState.startRecord [] [] (acc ++ [vals]) := by
  unfold rowChars
  by_cases hs : 0 < vals.length ∧ sepJoin (vals.map fieldChars) = []
  · have hvals : vals = [""] := sepJoin_fieldChars_nil vals hv hs.2
    rw [if_pos hs, hvals]
    simp [parseAux, isCrnl, mk_data]
  · rw [if_neg hs]
    have hb : sepJoin (vals.map fieldChars) ≠ [] := by
      intro hnil
      exact hs ⟨List.length_pos.mpr hv, hnil⟩
    obtain ⟨d, ds, hds⟩ := List.exists_cons_of_ne_nil hb
    have hd : isCrnl d = false := sepJoin_head_not_crnl vals d ds hds
    have key := parseAux_row_crnl vals hv '\r' (by simp [isCrnl]) ('\n' :: rest) [] acc
    have hstream1 : (sepJoin (vals.map fieldChars) ++ ['\r', '\n']) ++ rest
        = d :: (ds ++ '\r' :: '\n' :: rest) := by
      rw [hds]; simp
    have hstream2 : (sepJoin (vals.map fieldChars) ++ ['\r']) ++ ('\n' :: rest)
        = d :: (ds ++ '\r' :: '\n' :: rest) := by
      rw [hds]; simp
    rw [hstream2] at key
    rw [hstream1, parseAux_startRecord_eq_startField d hd, key]
    simp [parseAux, isCrnl]

theorem parseAux_flatten (rows : List (List String)) (hr : ∀ r ∈ rows, r ≠ []) :
    ∀ acc : List (List String),
    parseAux ((rows.map rowChars).flatten) PState.startRecord [] [] acc = acc ++ rows := by
  induction rows with
  | nil => intro acc; simp [parseAux]
  | cons r rs ih =>
    intro acc
    simp only [List.map_cons, List.flatten_cons]
    rw [parseAux_rowChars_run r (hr r (List.mem_cons_self r rs)) _ acc,
      ih (fun x hx => hr x (List.mem_cons_of_mem r hx)) (acc ++ [r])]
    simp

theorem join_data (l : List String) : (String.join l).data = (l.map String.data).flatten := by
  have aux : ∀ (l : List String) (s : String),
      (l.foldl (fun a b => a ++ b) s).data = s.data ++ (l.map String.data).flatten := by
    intro l
    induction l with
    | nil => intro s; simp
    | cons a as ih =>
      intro s
      simp only [List.foldl_cons, List.map_cons, List.flatten_cons]
      rw [ih (s ++ a)]
      simp [String.data_append]
  have : String.join l = l.foldl (fun a b => a ++ b) "" := rfl
  rw [this, aux]
  rfl

theorem serializeFile_data (h : List String) (rows : List (List String)) :
    (serializeFile h rows).data = ((h :: rows).map rowChars).flatten := by
  simp only [serializeFile, String.data_append, join_data, List.map_cons, List.flatten_cons]
  have : (rows.map writeRow).map String.data = rows.map rowChars := by
    rw [List.map_map]
    rfl
  rw [this]
  rfl

theorem parseCsv_serializeFile (h : List String) (rows : List (List String))
    (hh : h ≠ []) (hr : ∀ r ∈ rows, r ≠ []) :
    parseCsv (serializeFile h rows) = h :: rows := by
  unfold parseCsv
  rw [serializeFile_data, parseAux_flatten (h :: rows) ?_ []]
  · rfl
  · intro r hrmem
    rcases List.mem_cons.mp hrmem with hre | hrt
    · rw [hre]; exact hh
    · exact hr r hrt

theorem readRecords_serializeFile (h : List String) (rows : List (List String))
    (hh : h ≠ []) (hr : ∀ r ∈ rows, r ≠ []) :
    readRecords (serializeFile h rows) = rows.map (zipRecord h) := by
  unfold readRecords
  rw [parseCsv_serializeFile h rows hh hr]

/-! ## Record-level lemmas -/

theorem contains_iff (l : List String) (k : String) : l.contains k = true ↔ k ∈ l := by
  simp [List.contains]

theorem rowGet_cons_self (k : String) (ov : Option String) (r : Rec) :
    rowGet ((k, ov) :: r) k = ov := by
  simp [rowGet, List.find?_cons]

theorem rowGet_cons_ne (k : String) (ov : Option String) (r : Rec) (f : String)
    (hne : ¬(k = f)) : rowGet ((k, ov) :: r) f = rowGet r f := by
  simp [rowGet, List.find?_cons, hne]

theorem zipRecord_keys (h : List String) :
    ∀ r : List String, (zipRecord h r).map Prod.fst = h := by
  induction h with
  | nil => intro r; cases r <;> simp [zipRecord]
  | cons k h' ih =>
    intro r
    cases r with
    | nil => simp [zipRecord, ih]
    | cons v r' => simp [zipRecord, ih]

theorem zipRecord_eq_zip_map (h : List String) :
    ∀ r : List String, r.length = h.length →
    zipRecord h r = (h.zip r).map (fun q => (q.1, Option.some q.2)) := by
  induction h with
  | nil =>
    intro r hlen
    cases r with
    | nil => simp [zipRecord]
    | cons v r' => simp at hlen
  | cons k h' ih =>
    intro r hlen
    cases r with
    | nil => simp at hlen
    | cons v r' =>
      simp only [zipRecord, List.zip_cons_cons, List.map_cons]
      rw [ih r' (by simpa using hlen)]

theorem rowGet_lift (d : List (String × String)) (f : String) :
    rowGet (d.map (fun q => (q.1, Option.some q.2))) f = dictGet d f := by
  induction d with
  | nil => simp [rowGet, dictGet]
  | cons p ps ih =>
    by_cases hp : p.1 = f
    · simp [rowGet, dictGet, List.find?_cons, hp]
    · simp only [List.map_cons, rowGet, dictGet, List.find?_cons] at ih ⊢
      have hb : (p.1 == f) = false := by simp [hp]
      rw [hb]
      exact ih

theorem map_dictGet_eq_snd (h : List String) :
    ∀ D : List (String × String), h.Nodup → D.map Prod.fst = h →
    h.map (fun f => (dictGet D f).getD "") = D.map Prod.snd := by
  induction h with
  | nil =>
    intro D _ hD
    cases D with
    | nil => simp
    | cons p ps => simp at hD
  | cons k h' ih =>
    intro D hnd hD
    cases D with
    | nil => simp at hD
    | cons p ps =>
      obtain ⟨hk, hnd'⟩ := List.nodup_cons.mp hnd
      simp only [List.map_cons] at hD
      injection hD with h1 h2
      simp only [List.map_cons]
      congr 1
      · simp [dictGet, List.find?_cons, h1]
      · have hstep : ∀ f ∈ h', dictGet (p :: ps) f = dictGet ps f := by
          intro f hf
          have hne : ¬(p.1 = f) := by
            rw [h1]
            exact fun he => hk (he ▸ hf)
          have hb : (p.1 == f) = false := by simp [hne]
          simp [dictGet, List.find?_cons, hb]
        rw [List.map_congr_left (fun f hf => by rw [hstep f hf]), ih ps hnd' h2]

theorem writeRecord_dict (h : List String) (D : List (String × String))
    (hnd : h.Nodup) (hD : D.map Prod.fst = h) :
    writeRecord h (D.map (fun q => (q.1, Option.some q.2)))
      = Except.ok (writeRow (D.map Prod.snd)) := by
  unfold writeRecord
  have hkeys : (D.map (fun q => (q.1, Option.some q.2))).any
      (fun p => !(h.contains p.1)) = false := by
    rw [List.any_eq_false]
    intro p hp
    obtain ⟨q, hq, rfl⟩ := List.mem_map.mp hp
    have hmem : q.1 ∈ h := by
      rw [← hD]
      exact List.mem_map_of_mem Prod.fst hq
    simpa using hmem
  rw [hkeys]
  simp only [Bool.false_eq_true, if_false]
  have hvals : h.map (fun f => (rowGet (D.map (fun q => (q.1, Option.some q.2))) f).getD "")
      = D.map Prod.snd := by
    rw [List.map_congr_left (fun f _ => by rw [rowGet_lift D f]), map_dictGet_eq_snd h D hnd hD]
  rw [hvals]

theorem writeRecord_zipRecord (h : List String) (r : List String)
    (hnd : h.Nodup) (hlen : r.length = h.length) :
    writeRecord h (zipRecord h r) = Except.ok (writeRow r) := by
  rw [zipRecord_eq_zip_map h r hlen,
    writeRecord_dict h (h.zip r) hnd (List.map_fst_zip h r (le_of_eq hlen.symm)),
    List.map_snd_zip h r (le_of_eq hlen)]

theorem dictUpdate_dict (h : List String) (D nd : List (String × String))
    (hD : D.map Prod.fst = h) (hnd : ∀ q ∈ nd, h.contains q.1 = true) :
    dictUpdate (D.map (fun q => (q.1, Option.some q.2))) nd
      = (D.map (fun q => (q.1, match dictGet nd q.1 with
          | Option.some v => v
          | Option.none => q.2))).map (fun q => (q.1, Option.some q.2)) := by
  unfold dictUpdate
  have hkeys : (D.map (fun x => (x.1, Option.some x.2))).map Prod.fst = h := by
    rw [List.map_map, ← hD]
    rfl
  have hfilter : nd.filter (fun q =>
      !(((D.map (fun x => (x.1, Option.some x.2))).map Prod.fst).contains q.1)) = [] := by
    rw [List.filter_eq_nil_iff]
    intro q hq
    have hqm : q.1 ∈ h := by simpa using hnd q hq
    simp [hkeys, hqm]
  rw [hfilter]
  simp only [List.map_nil, List.append_nil, List.map_map]
  apply List.map_congr_left
  intro q _
  simp only [Function.comp_apply]
  cases dictGet nd q.1 <;> rfl

theorem mapM_writeRecord_map {α : Type} (h : List String) (g1 : α → Rec) (g2 : α → String)
    (l : List α) :
    (∀ x ∈ l, writeRecord h (g1 x) = Except.ok (g2 x)) →
    (l.map g1).mapM (writeRecord h) = Except.ok (l.map g2) := by
  induction l with
  | nil => intro _; rfl
  | cons x xs ih =>
    intro hx
    rw [List.map_cons, List.mapM_cons, hx x (List.mem_cons_self x xs),
      ih (fun y hy => hx y (List.mem_cons_of_mem x hy))]
    rfl

theorem rewriteFile_ok {α : Type} (h : List String) (g1 : α → Rec) (g2 : α → List String)
    (l : List α) (hx : ∀ x ∈ l, writeRecord h (g1 x) = Except.ok (writeRow (g2 x))) :
    rewriteFile h (l.map g1) = Except.ok (serializeFile h (l.map g2)) := by
  unfold rewriteFile
  rw [mapM_writeRecord_map h g1 (fun x => writeRow (g2 x)) l hx]
  simp only [serializeFile, List.map_map]
  rfl

theorem any_map_general {α β : Type} (f : α → β) (l : List α) (p : β → Bool) :
    (l.map f).any p = l.any (fun a => p (f a)) := by
  induction l with
  | nil => rfl
  | cons x xs ih => simp [ih]

theorem writeRecord_sub (h : List String) (D : List (String × String))
    (hsub : ∀ p ∈ D, h.contains p.1 = true) :
    writeRecord h (D.map (fun q => (q.1, Option.some q.2)))
      = Except.ok (writeRow (h.map (fun f => (dictGet D f).getD ""))) := by
  unfold writeRecord
  have hkeys : (D.map (fun q => (q.1, Option.some q.2))).any
      (fun p => !(h.contains p.1)) = false := by
    rw [List.any_eq_false]
    intro p hp
    obtain ⟨q, hq, rfl⟩ := List.mem_map.mp hp
    simpa using hsub q hq
  rw [hkeys]
  simp only [Bool.false_eq_true, if_false]
  rw [List.map_congr_left (fun f _ => by rw [rowGet_lift D f])]

theorem dictGet_map_self (l : List String) (g : String → String) (f : String) (hf : f ∈ l) :
    dictGet (l.map (fun k => (k, g k))) f = Option.some (g f) := by
  induction l with
  | nil => cases hf
  | cons k ks ih =>
    by_cases hk : k = f
    · subst hk
      simp [dictGet, List.find?_cons]
    · have hb : (k == f) = false := by simp [hk]
      simp only [List.map_cons, dictGet, List.find?_cons, hb]
      have hf' : f ∈ ks := by
        rcases List.mem_cons.mp hf with h1 | h2
        · exact absurd h1.symm hk
        · exact h2
      simpa [dictGet] using ih hf'

theorem dictGet_isSome_of_contains (d : List (String × String)) (k : String)
    (hc : (d.map Prod.fst).contains k = true) : ∃ v, dictGet d k = Option.some v := by
  have hmem : k ∈ d.map Prod.fst := by simpa using hc
  obtain ⟨p, hp, hpe⟩ := List.mem_map.mp hmem
  have hsome : (d.find? (fun q => q.1 == k)).isSome = true :=
    List.find?_isSome.mpr ⟨p, hp, by simp [hpe]⟩
  obtain ⟨q, hq⟩ := Option.isSome_iff_exists.mp hsome
  exact ⟨q.2, by simp [dictGet, hq]⟩

/-! ## C7: None condition rejected before the file is touched -/

/-- C7: for every store and every backing file — even a missing one —
`find_where` and `delete_where` with a `None` condition fail with
`InvalidConditionError` up front: the file's content and existence are
irrelevant and no read or write of it takes place. -/
theorem C7_none_condition_rejected_upfront (h : List String) (file : Option String) :
    find_where h file Cond.none = Except.error Err.invalidCondition ∧
    delete_where h file Cond.none = Except.error Err.invalidCondition :=
  ⟨rfl, rfl⟩

/-! ## C1: insert with extra keys -/

/-- C1 counterexample: with `fillMissing = true`, a record carrying the
extra key `"b"` is accepted — `insert` rebuilds the record from the schema
keys only, silently dropping `"b"`, and appends a row — contradicting the
claim that extra keys always fail with `UnexpectedFieldsError` regardless
of `fillMissing`. -/
theorem C1_counterexample :
    insert ["a"] "a\r\n" [("a", "1"), ("b", "2")] true
      = Except.ok ("a\r\n1\r\n", true) ∧
    ∀ e : Err, insert ["a"] "a\r\n" [("a", "1"), ("b", "2")] true ≠ Except.error e := by
  constructor
  · rfl
  · intro e hc
    exact Except.noConfusion ((rfl :
      insert ["a"] "a\r\n" [("a", "1"), ("b", "2")] true
        = Except.ok ("a\r\n1\r\n", true)).symm.trans hc)

/-- C1 amended: a non-empty record that contains every schema field plus at
least one extra key fails with `UnexpectedFieldsError` when `fillMissing`
is false; with `fillMissing = true` the extra keys are silently dropped and
the insert succeeds, appending the schema-key projection of the record. -/
theorem C1_amended_insert_extra_keys (h : List String) (file : String)
    (row : List (String × String))
    (hne : row ≠ [])
    (hmiss : ∀ k ∈ h, (row.map Prod.fst).contains k = true)
    (hextra : ∃ p ∈ row, h.contains p.1 = false) :
    insert h file row false = Except.error Err.unexpectedFields ∧
    insert h file row true
      = Except.ok (file ++ writeRow (h.map (fun f => (dictGet row f).getD "")), true) := by
  have h0 : row.isEmpty = false := by
    cases row with
    | nil => exact absurd rfl hne
    | cons p ps => rfl
  constructor
  · have hanymiss : h.any (fun k => !((row.map Prod.fst).contains k)) = false := by
      rw [List.any_eq_false]
      intro k hk
      simpa using hmiss k hk
    have hanyextra : row.any (fun p => !(h.contains p.1)) = true := by
      obtain ⟨p, hp, hpc⟩ := hextra
      exact List.any_eq_true.mpr ⟨p, hp, by simpa using hpc⟩
    simp only [insert, h0, Bool.false_eq_true, if_false]
    rw [hanymiss]
    simp only [Bool.false_eq_true, if_false]
    rw [hanyextra]
    simp
  · have hanyextra2 : (h.map (fun k => (k, (dictGet row k).getD ""))).any
        (fun p => !(h.contains p.1)) = false := by
      rw [List.any_eq_false]
      intro p hp
      obtain ⟨k, hk, rfl⟩ := List.mem_map.mp hp
      simp [hk]
    have hsub : ∀ p ∈ h.map (fun k => (k, (dictGet row k).getD "")),
        h.contains p.1 = true := by
      intro p hp
      obtain ⟨k, hk, rfl⟩ := List.mem_map.mp hp
      simp [hk]
    have hw := writeRecord_sub h (h.map (fun k => (k, (dictGet row k).getD ""))) hsub
    have hvals : h.map (fun f =>
        (dictGet (h.map (fun k => (k, (dictGet row k).getD ""))) f).getD "")
        = h.map (fun f => (dictGet row f).getD "") := by
      apply List.map_congr_left
      intro f hf
      rw [dictGet_map_self h (fun k => (dictGet row k).getD "") f hf]
      rfl
    rw [hvals] at hw
    rw [List.map_map] at hw
    simp only [insert, h0, Bool.false_eq_true, if_false, if_true]
    rw [hanyextra2]
    simp only [Bool.false_eq_true, if_false, List.map_map]
    rw [hw]

/-- C1 amended witness: the amended statement evaluated at the schema
`["a"]` and the record `{"a": "1", "b": "2"}`. -/
theorem C1_amended_witness :
    ([("a", "1"), ("b", "2")] : List (String × String)) ≠ [] ∧
    (∀ k ∈ (["a"] : List String),
      ([("a", "1"), ("b", "2")].map Prod.fst).contains k = true) ∧
    (∃ p ∈ ([("a", "1"), ("b", "2")] : List (String × String)),
      (["a"] : List String).contains p.1 = false) ∧
    insert ["a"] "a\r\n" [("a", "1"), ("b", "2")] false
      = Except.error Err.unexpectedFields ∧
    insert ["a"] "a\r\n" [("a", "1"), ("b", "2")] true
      = Except.ok ("a\r\n1\r\n", true) := by
  have hk := C1_amended_insert_extra_keys ["a"] "a\r\n" [("a", "1"), ("b", "2")]
    (by decide) (by decide) (by decide)
  refine ⟨by decide, by decide, by decide, hk.1, ?_⟩
  rw [hk.2]
  rfl

/-! ## C6: codec round-trip -/

/-- C6: serializing a record whose values contain the delimiter, embedded
quote characters or the row terminator, and parsing the row back — exactly
what `insert` and `find_all` do through the csv writer and reader —
reproduces the original values exactly. -/
theorem C6_roundtrip (vals : List String)
    (hspec : ∃ v ∈ vals, v.data.any isSpecial = true) :
    parseCsv (writeRow vals) = [vals] := by
  have hne : vals ≠ [] := by
    rintro rfl
    obtain ⟨v, hv, _⟩ := hspec
    cases hv
  have hdata : (writeRow vals).data = rowChars vals ++ [] := by
    simp [writeRow]
  unfold parseCsv
  rw [hdata, parseAux_rowChars_run vals hne [] []]
  rfl

/-- C6 witness: the round-trip at a record containing a comma, embedded
quotes and a row terminator. -/
theorem C6_roundtrip_witness :
    (∃ v ∈ (["x,y", "he said \"hi\"", "l1\r\nl2"] : List String),
      v.data.any isSpecial = true) ∧
    parseCsv (writeRow ["x,y", "he said \"hi\"", "l1\r\nl2"])
      = [["x,y", "he said \"hi\"", "l1\r\nl2"]] :=
  ⟨by decide, C6_roundtrip ["x,y", "he said \"hi\"", "l1\r\nl2"] (by decide)⟩

theorem find_where_dict (h : List String) (s : String) (m : List (String × String)) :
    find_where h (Option.some s) (Cond.dict m)
      = if m.isEmpty then Except.error Err.emptyCondition
        else if !condKeysOk h m then Except.error Err.invalidConditionKey
        else Except.ok ((readRecords s).filter (matchesDict m)) := rfl

theorem delete_where_not_none (h : List String) (s : String) (cond : Cond)
    (hc : cond ≠ Cond.none) :
    delete_where h (Option.some s) cond
      = match matchPartition h cond (readRecords s) with
        | Except.error e => Except.error e
        | Except.ok (kept, removed) =>
          if removed then
            match rewriteFile h kept with
            | Except.error e => Except.error e
            | Except.ok s2 => Except.ok (Option.some s2, true)
          else Except.ok (Option.some s, false) := by
  cases cond with
  | none => exact absurd rfl hc
  | dict m => rfl
  | func f => rfl
  | other => rfl

theorem matchPartition_all_false (h : List String) (cond : Cond) :
    ∀ recs : List Rec, (∀ r ∈ recs, matchRec h cond r = Except.ok false) →
    matchPartition h cond recs = Except.ok (recs, false) := by
  intro recs
  induction recs with
  | nil => intro _; rfl
  | cons r rs ih =>
    intro hall
    unfold matchPartition
    rw [hall r (List.mem_cons_self r rs), ih (fun x hx => hall x (List.mem_cons_of_mem r hx))]
    rfl

theorem matchPartition_dict_valid (h : List String) (m : List (String × String))
    (hm : m.isEmpty = false) (hk : condKeysOk h m = true) :
    ∀ recs : List Rec, matchPartition h (Cond.dict m) recs
      = Except.ok (recs.filter (fun r => !(matchesDict m r)), recs.any (matchesDict m)) := by
  intro recs
  induction recs with
  | nil => rfl
  | cons r rs ih =>
    have hmr : matchRec h (Cond.dict m) r = Except.ok (matchesDict m r) := by
      simp only [matchRec]
      rw [hm, hk]
      rfl
    unfold matchPartition
    rw [hmr, ih]
    cases hmd : matchesDict m r with
    | true => simp [hmd]
    | false => simp [hmd]

/-! ## C8: find argument validation and lookup -/

/-- C8: `find` fails with `InvalidArgumentError` exactly when the key or
the value is the empty (falsy) string; with non-falsy arguments it returns
exactly the stored records whose `key` field equals `value`, in file order
— the empty sequence, not an error, when none match. -/
theorem C8_find_spec (h : List String) (rows : List (List String)) (key value : String)
    (hh : h ≠ []) (hr : ∀ r ∈ rows, r ≠ []) :
    (find (serializeFile h rows) key value = Except.error Err.invalidArgument
      ↔ (key = "" ∨ value = "")) ∧
    (¬(key = "" ∨ value = "") →
      find (serializeFile h rows) key value
        = Except.ok ((rows.map (zipRecord h)).filter
            (fun r => rowGet r key == Option.some value))) := by
  constructor
  · constructor
    · intro heq
      by_contra hkv
      push_neg at hkv
      have hcond : (key = "" || value = "") = false := by
        simp [hkv.1, hkv.2]
      unfold find at heq
      rw [hcond] at heq
      simp only [Bool.false_eq_true, if_false] at heq
      exact Except.noConfusion heq
    · intro hkv
      have hcond : (key = "" || value = "") = true := by
        rcases hkv with hk | hv
        · simp [hk]
        · simp [hv]
      unfold find
      rw [hcond]
      rfl
  · intro hkv
    push_neg at hkv
    have hcond : (key = "" || value = "") = false := by
      simp [hkv.1, hkv.2]
    unfold find
    rw [hcond]
    simp only [Bool.false_eq_true, if_false]
    rw [readRecords_serializeFile h rows hh hr]

/-- C8 witness: the specification of `find` evaluated on a store of two
records, looking up `name = "ann"`. -/
theorem C8_find_witness :
    (["name", "age"] : List String) ≠ [] ∧
    (¬(("name" : String) = "" ∨ ("ann" : String) = "")) ∧
    find (serializeFile ["name", "age"] [["ann", "30"], ["bob", "40"]]) "name" "ann"
      = Except.ok [[("name", Option.some "ann"), ("age", Option.some "30")]] := by
  refine ⟨by decide, by decide, ?_⟩
  have hs := (C8_find_spec ["name", "age"] [["ann", "30"], ["bob", "40"]] "name" "ann"
    (by decide) (by decide)).2 (by decide)
  rw [hs]
  rfl

/-! ## C4: a delete that matches nothing writes nothing -/

/-- C4: when the condition matches zero stored records, `delete_where`
performs no write and returns the backing file byte-identical together
with `false`; likewise `delete` with a key/value pair matching no record. -/
theorem C4_noop_delete (h : List String) (file : String) (cond : Cond)
    (key : String) (value : Option String)
    (hcond0 : cond ≠ Cond.none)
    (hcond : ∀ r ∈ readRecords file, matchRec h cond r = Except.ok false)
    (hkv : ∀ r ∈ readRecords file, ¬(rowGet r key = value)) :
    delete_where h (Option.some file) cond = Except.ok (Option.some file, false) ∧
    delete h file key value = Except.ok (file, false) := by
  constructor
  · rw [delete_where_not_none h file cond hcond0,
      matchPartition_all_false h cond (readRecords file) hcond]
    rfl
  · have hany : (readRecords file).any (fun r => rowGet r key == value) = false := by
      rw [List.any_eq_false]
      intro r hrm
      simpa using hkv r hrm
    simp only [delete]
    rw [hany]
    simp only [Bool.false_eq_true, if_false]

/-- C4 witness: a store holding one record, a map condition and a key/value
pair that match nothing — both deletes return the file unchanged. -/
theorem C4_noop_witness :
    (∀ r ∈ readRecords "name,age\r\nann,30\r\n",
      matchRec ["name", "age"] (Cond.dict [("name", "zzz")]) r = Except.ok false) ∧
    (∀ r ∈ readRecords "name,age\r\nann,30\r\n",
      ¬(rowGet r "name" = Option.some "zzz")) ∧
    delete_where ["name", "age"] (Option.some "name,age\r\nann,30\r\n")
        (Cond.dict [("name", "zzz")])
      = Except.ok (Option.some "name,age\r\nann,30\r\n", false) ∧
    delete ["name", "age"] "name,age\r\nann,30\r\n" "name" (Option.some "zzz")
      = Except.ok ("name,age\r\nann,30\r\n", false) := by
  have hc := C4_noop_delete ["name", "age"] "name,age\r\nann,30\r\n"
    (Cond.dict [("name", "zzz")]) "name" (Option.some "zzz")
    (fun hcc => Cond.noConfusion hcc) (by decide) (by decide)
  exact ⟨by decide, by decide, hc.1, hc.2⟩

/-! ## C2: map-shaped condition validation and matching -/

/-- C2 counterexample: on a store with zero records, `delete_where` with an
empty map — and likewise with a map whose key is not in the schema —
returns `false` without raising any error, because `_match` (which carries
the validation) is only invoked per stored record.  This contradicts the
claim that both operations fail independently of how many records are
stored, including zero. -/
theorem C2_counterexample :
    delete_where ["a"] (Option.some "a\r\n") (Cond.dict [])
      = Except.ok (Option.some "a\r\n", false) ∧
    delete_where ["a"] (Option.some "a\r\n") (Cond.dict [("zz", "1")])
      = Except.ok (Option.some "a\r\n", false) :=
  ⟨rfl, rfl⟩

/-- C2 amended: `find_where` validates a map condition before inspecting
any record, so an empty map fails with `EmptyConditionError` and a map with
a key outside the schema fails with `InvalidConditionKeyError`, for every
file content including an empty store; with a valid map it returns exactly
the records all of whose condition keys store the condition's values.
`delete_where` performs the same two checks per stored record, so they fire
iff at least one record is stored; with zero records it returns `false`
without error.  A record matches a map iff every key's stored value equals
the map's value under string equality. -/
theorem C2_amended_map_condition_checks :
    (∀ (h : List String) (s : String),
      find_where h (Option.some s) (Cond.dict []) = Except.error Err.emptyCondition) ∧
    (∀ (h : List String) (s : String) (m : List (String × String)),
      m ≠ [] → condKeysOk h m = false →
      find_where h (Option.some s) (Cond.dict m) = Except.error Err.invalidConditionKey) ∧
    (∀ (h : List String) (rows : List (List String)) (m : List (String × String)),
      h ≠ [] → (∀ r ∈ rows, r ≠ []) → m ≠ [] → condKeysOk h m = true →
      find_where h (Option.some (serializeFile h rows)) (Cond.dict m)
        = Except.ok ((rows.map (zipRecord h)).filter (matchesDict m))) ∧
    (∀ (h : List String) (s : String),
      readRecords s ≠ [] →
      delete_where h (Option.some s) (Cond.dict []) = Except.error Err.emptyCondition) ∧
    (∀ (h : List String) (s : String) (m : List (String × String)),
      readRecords s ≠ [] → m ≠ [] → condKeysOk h m = false →
      delete_where h (Option.some s) (Cond.dict m)
        = Except.error Err.invalidConditionKey) ∧
    (∀ (h : List String) (s : String) (m : List (String × String)),
      readRecords s = [] →
      delete_where h (Option.some s) (Cond.dict m) = Except.ok (Option.some s, false)) ∧
    (∀ (m : List (String × String)) (r : Rec),
      matchesDict m r = true ↔ ∀ p ∈ m, rowGet r p.1 = Option.some p.2) := by
  have hisEmpty : ∀ (m : List (String × String)), m ≠ [] → m.isEmpty = false := by
    intro m hm
    cases m with
    | nil => exact absurd rfl hm
    | cons p ps => rfl
  refine ⟨?_, ?_, ?_, ?_, ?_, ?_, ?_⟩
  · intro h s
    rfl
  · intro h s m hm hk
    rw [find_where_dict, hisEmpty m hm, hk]
    rfl
  · intro h rows m hh hr hm hk
    rw [find_where_dict, hisEmpty m hm, hk, readRecords_serializeFile h rows hh hr]
    rfl
  · intro h s hne
    obtain ⟨r, rs, hrr⟩ := List.exists_cons_of_ne_nil hne
    rw [delete_where_not_none h s (Cond.dict []) (fun hc => Cond.noConfusion hc), hrr]
    rfl
  · intro h s m hne hm hk
    obtain ⟨r, rs, hrr⟩ := List.exists_cons_of_ne_nil hne
    have hmr : matchRec h (Cond.dict m) r = Except.error Err.invalidConditionKey := by
      simp only [matchRec]
      rw [hisEmpty m hm, hk]
      rfl
    have hmp : matchPartition h (Cond.dict m) (r :: rs)
        = Except.error Err.invalidConditionKey := by
      unfold matchPartition
      rw [hmr]
    rw [delete_where_not_none h s (Cond.dict m) (fun hc => Cond.noConfusion hc), hrr, hmp]
  · intro h s m h0
    rw [delete_where_not_none h s (Cond.dict m) (fun hc => Cond.noConfusion hc), h0]
    rfl
  · intro m r
    simp [matchesDict, List.all_eq_true]

/-- C2 amended witness: each clause of the amended statement evaluated on
small concrete stores. -/
theorem C2_amended_map_witness :
    find_where ["a"] (Option.some "a\r\n") (Cond.dict [])
      = Except.error Err.emptyCondition ∧
    find_where ["a"] (Option.some "a\r\n") (Cond.dict [("zz", "1")])
      = Except.error Err.invalidConditionKey ∧
    find_where ["name", "age"]
        (Option.some (serializeFile ["name", "age"] [["ann", "30"], ["bob", "40"]]))
        (Cond.dict [("age", "30")])
      = Except.ok [[("name", Option.some "ann"), ("age", Option.some "30")]] ∧
    delete_where ["a"] (Option.some "a\r\nx\r\n") (Cond.dict [])
      = Except.error Err.emptyCondition ∧
    delete_where ["a"] (Option.some "a\r\nx\r\n") (Cond.dict [("zz", "1")])
      = Except.error Err.invalidConditionKey ∧
    delete_where ["a"] (Option.some "a\r\n") (Cond.dict [("zz", "1")])
      = Except.ok (Option.some "a\r\n", false) := by
  obtain ⟨c1, c2, c3, c4, c5, c6, c7⟩ := C2_amended_map_condition_checks
  refine ⟨c1 ["a"] "a\r\n", c2 ["a"] "a\r\n" [("zz", "1")] (by decide) (by decide),
    ?_, c4 ["a"] "a\r\nx\r\n" (by decide),
    c5 ["a"] "a\r\nx\r\n" [("zz", "1")] (by decide) (by decide) (by decide),
    c6 ["a"] "a\r\n" [("zz", "1")] (by decide)⟩
  have hc := c3 ["name", "age"] [["ann", "30"], ["bob", "40"]] [("age", "30")]
    (by decide) (by decide) (by decide) (by decide)
  rw [hc]
  rfl

theorem rowGet_not_mem (r : Rec) (k : String) (hk : k ∉ r.map Prod.fst) :
    rowGet r k = Option.none := by
  unfold rowGet
  have hf : r.find? (fun p => p.1 == k) = Option.none := by
    rw [List.find?_eq_none]
    intro p hp
    simp only [beq_iff_eq]
    intro he
    exact hk (he ▸ List.mem_map_of_mem Prod.fst hp)
  rw [hf]

theorem zipRecord_map_self (l : List String) (g : String → String) :
    zipRecord l (l.map g) = l.map (fun k => (k, Option.some (g k))) := by
  induction l with
  | nil => rfl
  | cons k ks ih => simp [zipRecord, ih]

theorem rowGet_map_self (l : List String) (g : String → String) (f : String) (hf : f ∈ l) :
    rowGet (l.map (fun k => (k, Option.some (g k)))) f = Option.some (g f) := by
  have hsplit : l.map (fun k => (k, Option.some (g k)))
      = (l.map (fun k => (k, g k))).map (fun q => (q.1, Option.some q.2)) := by
    rw [List.map_map]
    rfl
  rw [hsplit, rowGet_lift, dictGet_map_self l g f hf]

theorem serializeFile_append_row (h : List String) (rows : List (List String))
    (v : List String) :
    serializeFile h (rows ++ [v]) = serializeFile h rows ++ writeRow v := by
  apply String.ext
  rw [serializeFile_data, String.data_append, serializeFile_data]
  have hsplit : h :: (rows ++ [v]) = (h :: rows) ++ [v] := rfl
  rw [hsplit, List.map_append, List.flatten_append]
  simp [writeRow]

/-! ## C10: delete with an out-of-schema key and a None value -/

/-- C10: `delete` validates nothing: with a key that is not a schema field
and the value `None`, the lookup of the absent field yields `None` for
every stored record, so every record matches — all records are removed
(the file is rewritten to just its header) and the call returns true iff at
least one record was stored. -/
theorem C10_delete_no_validation (h : List String) (rows : List (List String)) (key : String)
    (hh : h ≠ []) (hk : h.contains key = false)
    (hlen : ∀ r ∈ rows, r.length = h.length) :
    delete h (serializeFile h rows) key Option.none
      = if rows.isEmpty then Except.ok (serializeFile h rows, false)
        else Except.ok (serializeFile h [], true) := by
  have hr : ∀ r ∈ rows, r ≠ [] := by
    intro r hrm hnil
    have hlr := hlen r hrm
    rw [hnil] at hlr
    exact hh (List.eq_nil_of_length_eq_zero hlr.symm)
  have hmatch : ∀ r ∈ rows, rowGet (zipRecord h r) key = Option.none := by
    intro r hrm
    apply rowGet_not_mem
    rw [zipRecord_keys]
    intro hmem
    have hct := (contains_iff h key).mpr hmem
    rw [hk] at hct
    exact Bool.noConfusion hct
  simp only [delete]
  rw [readRecords_serializeFile h rows hh hr]
  cases rows with
  | nil => rfl
  | cons r0 rs0 =>
    have hany : ((r0 :: rs0).map (zipRecord h)).any
        (fun r => rowGet r key == Option.none) = true := by
      apply List.any_eq_true.mpr
      refine ⟨zipRecord h r0, List.mem_map_of_mem _ (List.mem_cons_self r0 rs0), ?_⟩
      simp [hmatch r0 (List.mem_cons_self r0 rs0)]
    have hkept : ((r0 :: rs0).map (zipRecord h)).filter
        (fun r => !(rowGet r key == Option.none)) = [] := by
      rw [List.filter_eq_nil_iff]
      intro rec hrec
      obtain ⟨r, hrm, rfl⟩ := List.mem_map.mp hrec
      simp [hmatch r hrm]
    rw [hany]
    simp only [if_true]
    rw [hkept]
    rfl

/-- C10 witness: deleting with the out-of-schema key `"zz"` and value
`None` from a one-record store removes the record and returns true. -/
theorem C10_delete_witness :
    (["name", "age"] : List String).contains "zz" = false ∧
    delete ["name", "age"] (serializeFile ["name", "age"] [["ann", "30"]]) "zz" Option.none
      = Except.ok (serializeFile ["name", "age"] [], true) := by
  refine ⟨by decide, ?_⟩
  have hc := C10_delete_no_validation ["name", "age"] [["ann", "30"]] "zz"
    (by decide) (by decide) (by decide)
  rw [hc]
  rfl

/-! ## C5: insert appends exactly one row -/

/-- C5: inserting a valid record whose key set equals the Schema appends
exactly one serialized row and returns true; a subsequent `find_all`
returns the previous records unchanged with the new record at the end, and
the stored record agrees with the inserted one field for field. -/
theorem C5_insert_append_find_all (h : List String) (rows : List (List String))
    (row : List (String × String))
    (hh : h ≠ []) (hr : ∀ r ∈ rows, r ≠ []) (hne : row ≠ [])
    (hmiss : ∀ k ∈ h, (row.map Prod.fst).contains k = true)
    (hsub : ∀ p ∈ row, h.contains p.1 = true) :
    insert h (serializeFile h rows) row false
        = Except.ok
            (serializeFile h (rows ++ [h.map (fun f => (dictGet row f).getD "")]), true) ∧
    find_all (serializeFile h (rows ++ [h.map (fun f => (dictGet row f).getD "")]))
        = (rows ++ [h.map (fun f => (dictGet row f).getD "")]).map (zipRecord h) ∧
    (∀ f ∈ h, rowGet (zipRecord h (h.map (fun f => (dictGet row f).getD ""))) f
        = dictGet row f) := by
  have h0 : row.isEmpty = false := by
    cases row with
    | nil => exact absurd rfl hne
    | cons p ps => rfl
  have hanymiss : h.any (fun k => !((row.map Prod.fst).contains k)) = false := by
    rw [List.any_eq_false]
    intro k hk
    simpa using hmiss k hk
  have hanyextra : row.any (fun p => !(h.contains p.1)) = false := by
    rw [List.any_eq_false]
    intro p hp
    simpa using hsub p hp
  have hw := writeRecord_sub h row hsub
  refine ⟨?_, ?_, ?_⟩
  · simp only [insert, h0, Bool.false_eq_true, if_false]
    rw [hanymiss]
    simp only [Bool.false_eq_true, if_false]
    rw [hanyextra]
    simp only [Bool.false_eq_true, if_false]
    rw [hw, serializeFile_append_row]
  · unfold find_all
    apply readRecords_serializeFile h _ hh
    intro r hrm
    rcases List.mem_append.mp hrm with h1 | h2
    · exact hr r h1
    · rw [List.mem_singleton.mp h2]
      intro hnil
      exact hh (by simpa using hnil)
  · intro f hf
    rw [zipRecord_map_self h (fun f => (dictGet row f).getD ""),
      rowGet_map_self h (fun f => (dictGet row f).getD "") f hf]
    obtain ⟨v, hv⟩ := dictGet_isSome_of_contains row f (hmiss f hf)
    rw [hv]
    rfl

/-- C5 witness: inserting `{"age": "41", "name": "bob"}` (keys in scrambled
order) into a one-record store of schema `["name", "age"]`. -/
theorem C5_insert_witness :
    (∀ k ∈ (["name", "age"] : List String),
      ([("age", "41"), ("name", "bob")].map Prod.fst).contains k = true) ∧
    (∀ p ∈ ([("age", "41"), ("name", "bob")] : List (String × String)),
      (["name", "age"] : List String).contains p.1 = true) ∧
    insert ["name", "age"] (serializeFile ["name", "age"] [["ann", "30"]])
        [("age", "41"), ("name", "bob")] false
      = Except.ok (serializeFile ["name", "age"] [["ann", "30"], ["bob", "41"]], true) ∧
    find_all (serializeFile ["name", "age"] [["ann", "30"], ["bob", "41"]])
      = [[("name", Option.some "ann"), ("age", Option.some "30")],
         [("name", Option.some "bob"), ("age", Option.some "41")]] := by
  have hc := C5_insert_append_find_all ["name", "age"] [["ann", "30"]]
    [("age", "41"), ("name", "bob")]
    (by decide) (by decide) (by decide) (by decide) (by decide)
  refine ⟨by decide, by decide, ?_, ?_⟩
  · exact hc.1.trans (by rfl)
  · exact hc.2.1.trans (by rfl)

theorem writeRecord_error_of_extra (h : List String) (rec : Rec)
    (hex : ∃ p ∈ rec, h.contains p.1 = false) :
    writeRecord h rec = Except.error Err.writerUnexpectedFields := by
  unfold writeRecord
  have hany : rec.any (fun p => !(h.contains p.1)) = true := by
    obtain ⟨p, hp, hpc⟩ := hex
    exact List.any_eq_true.mpr ⟨p, hp, by simpa using hpc⟩
  rw [hany]
  rfl

theorem dictUpdate_mem_extra (rec : Rec) (nd : List (String × String))
    (p : String × String) (hp : p ∈ nd)
    (hnotin : (rec.map Prod.fst).contains p.1 = false) :
    (p.1, Option.some p.2) ∈ dictUpdate rec nd := by
  unfold dictUpdate
  apply List.mem_append_right
  apply List.mem_map_of_mem
  rw [List.mem_filter]
  exact ⟨hp, by simpa using hnotin⟩

theorem mapM_writeRecord_error {α : Type} (h : List String) (g : α → Rec) :
    ∀ l : List α,
    (∀ x ∈ l, writeRecord h (g x) = Except.error Err.writerUnexpectedFields ∨
      ∃ s, writeRecord h (g x) = Except.ok s) →
    (∃ x ∈ l, writeRecord h (g x) = Except.error Err.writerUnexpectedFields) →
    (l.map g).mapM (writeRecord h) = Except.error Err.writerUnexpectedFields := by
  intro l
  induction l with
  | nil =>
    intro _ hex
    obtain ⟨x, hx, _⟩ := hex
    cases hx
  | cons x xs ih =>
    intro hall hex
    rw [List.map_cons, List.mapM_cons]
    rcases hall x (List.mem_cons_self x xs) with herr | ⟨s, hok⟩
    · rw [herr]
      rfl
    · have hex2 : ∃ y ∈ xs, writeRecord h (g y)
          = Except.error Err.writerUnexpectedFields := by
        obtain ⟨y, hy, hyerr⟩ := hex
        rcases List.mem_cons.mp hy with hyx | hy2
        · rw [hyx, hok] at hyerr
          exact absurd hyerr (fun hc => Except.noConfusion hc)
        · exact ⟨y, hy2, hyerr⟩
      have htail := ih (fun z hz => hall z (List.mem_cons_of_mem x hz)) hex2
      rw [hok, htail]
      rfl

theorem writeRecord_dictUpdate (h : List String) (r : List String)
    (nd : List (String × String))
    (hnd : h.Nodup) (hlen : r.length = h.length)
    (hndk : ∀ q ∈ nd, h.contains q.1 = true) :
    writeRecord h (dictUpdate (zipRecord h r) nd)
      = Except.ok (writeRow (mergeVals h r nd)) := by
  rw [zipRecord_eq_zip_map h r hlen,
    dictUpdate_dict h (h.zip r) nd (List.map_fst_zip h r (le_of_eq hlen.symm)) hndk]
  have hD : ((h.zip r).map (fun q => (q.1, match dictGet nd q.1 with
      | Option.some v => v
      | Option.none => q.2))).map Prod.fst = h := by
    rw [List.map_map]
    exact List.map_fst_zip h r (le_of_eq hlen.symm)
  rw [writeRecord_dict h _ hnd hD]
  have hsnd : ((h.zip r).map (fun q => (q.1, match dictGet nd q.1 with
      | Option.some v => v
      | Option.none => q.2))).map Prod.snd = mergeVals h r nd := by
    rw [List.map_map]
    rfl
  rw [hsnd]

theorem mergeVals_getElem (h : List String) :
    ∀ (r : List String) (nd : List (String × String)) (i : Nat), r.length = h.length →
    (mergeVals h r nd)[i]? = (h[i]?).bind (fun f => (r[i]?).map (fun v =>
      match dictGet nd f with
      | Option.some w => w
      | Option.none => v)) := by
  induction h with
  | nil =>
    intro r nd i hlen
    cases r with
    | nil => simp [mergeVals]
    | cons v r2 => simp at hlen
  | cons k h2 ih =>
    intro r nd i hlen
    cases r with
    | nil => simp at hlen
    | cons v r2 =>
      have hlen2 : r2.length = h2.length := by simpa using hlen
      have hstep : mergeVals (k :: h2) (v :: r2) nd
          = (match dictGet nd k with
             | Option.some w => w
             | Option.none => v) :: mergeVals h2 r2 nd := by
        simp [mergeVals]
      cases i with
      | zero =>
        rw [hstep]
        simp
      | succ n =>
        rw [hstep]
        simp only [List.getElem?_cons_succ]
        exact ih r2 nd n hlen2

/-! ## C9: update with out-of-schema keys in new_data -/

/-- C9: when at least one record matches and `new_data` carries a key
outside the schema, `update` raises during the rewrite phase — the row
writer (`extrasaction="raise"`) rejects the merged record — so such an
update never completes successfully. -/
theorem C9_update_extra_key (h : List String) (rows : List (List String))
    (key : String) (value : Option String) (nd : List (String × String))
    (hh : h ≠ []) (hnd : h.Nodup) (hlen : ∀ r ∈ rows, r.length = h.length)
    (hmatch : ∃ r ∈ rows, rowGet (zipRecord h r) key = value)
    (hextra : ∃ p ∈ nd, h.contains p.1 = false) :
    update h (serializeFile h rows) key value nd
      = Except.error Err.writerUnexpectedFields := by
  have hr : ∀ r ∈ rows, r ≠ [] := by
    intro r hrm hnil
    have hlr := hlen r hrm
    rw [hnil] at hlr
    exact hh (List.eq_nil_of_length_eq_zero hlr.symm)
  obtain ⟨p0, hp0, hp0c⟩ := hextra
  have hgerr : ∀ r ∈ rows, (rowGet (zipRecord h r) key == value) = true →
      writeRecord h (dictUpdate (zipRecord h r) nd)
        = Except.error Err.writerUnexpectedFields := by
    intro r _ _
    apply writeRecord_error_of_extra
    refine ⟨(p0.1, Option.some p0.2), ?_, hp0c⟩
    apply dictUpdate_mem_extra _ nd p0 hp0
    rw [zipRecord_keys]
    exact hp0c
  simp only [update]
  rw [readRecords_serializeFile h rows hh hr, any_map_general, List.map_map]
  have hany : rows.any (fun a => rowGet (zipRecord h a) key == value) = true := by
    obtain ⟨r, hrm, hre⟩ := hmatch
    exact List.any_eq_true.mpr ⟨r, hrm, by simp [hre]⟩
  rw [hany]
  simp only [if_true, Function.comp_def]
  have hrwerr : rewriteFile h (rows.map (fun r =>
      if rowGet (zipRecord h r) key == value then dictUpdate (zipRecord h r) nd
      else zipRecord h r)) = Except.error Err.writerUnexpectedFields := by
    unfold rewriteFile
    have hall : ∀ r ∈ rows,
        writeRecord h (if rowGet (zipRecord h r) key == value then
          dictUpdate (zipRecord h r) nd else zipRecord h r)
          = Except.error Err.writerUnexpectedFields ∨
        ∃ s, writeRecord h (if rowGet (zipRecord h r) key == value then
          dictUpdate (zipRecord h r) nd else zipRecord h r) = Except.ok s := by
      intro r hrm
      by_cases hb : (rowGet (zipRecord h r) key == value) = true
      · rw [if_pos hb]
        exact Or.inl (hgerr r hrm hb)
      · rw [if_neg hb]
        exact Or.inr ⟨writeRow r, writeRecord_zipRecord h r hnd (hlen r hrm)⟩
    have hex : ∃ r ∈ rows,
        writeRecord h (if rowGet (zipRecord h r) key == value then
          dictUpdate (zipRecord h r) nd else zipRecord h r)
          = Except.error Err.writerUnexpectedFields := by
      obtain ⟨r, hrm, hre⟩ := hmatch
      have hb : (rowGet (zipRecord h r) key == value) = true := by simp [hre]
      refine ⟨r, hrm, ?_⟩
      rw [if_pos hb]
      exact hgerr r hrm hb
    rw [mapM_writeRecord_error h _ rows hall hex]
  rw [hrwerr]

/-- C9 witness: updating the matching record of a one-record store with
`new_data` holding the out-of-schema key `"zz"` fails in the writer. -/
theorem C9_update_witness :
    (∃ r ∈ [["ann", "30"]],
      rowGet (zipRecord ["name", "age"] r) "name" = Option.some "ann") ∧
    (∃ p ∈ [("zz", "1")], (["name", "age"] : List String).contains p.1 = false) ∧
    update ["name", "age"] (serializeFile ["name", "age"] [["ann", "30"]])
        "name" (Option.some "ann") [("zz", "1")]
      = Except.error Err.writerUnexpectedFields := by
  refine ⟨by decide, by decide, ?_⟩
  exact C9_update_extra_key ["name", "age"] [["ann", "30"]] "name" (Option.some "ann")
    [("zz", "1")] (by decide) (by decide) (by decide) (by decide) (by decide)

/-! ## C3: update modifies exactly the matching records and fields -/

/-- C3: with `new_data` keys inside the schema, `update` maps each stored
record to itself when its `key` field differs from `value` and to the merge
of `new_data` into it when it matches, preserving record order; the file is
rewritten (to the serialization of that mapped list) only if at least one
record matched — otherwise it is returned byte-identical — and the boolean
result is true iff at least one record matched.  Non-matching records keep
their exact serialized bytes, and within a merged record a field not named
in `new_data` keeps its stored value while a field named in `new_data`
takes the new value. -/
theorem C3_update_frame (h : List String) (rows : List (List String))
    (key : String) (value : Option String) (nd : List (String × String))
    (hh : h ≠ []) (hnd : h.Nodup) (hlen : ∀ r ∈ rows, r.length = h.length)
    (hndk : ∀ q ∈ nd, h.contains q.1 = true) :
    (update h (serializeFile h rows) key value nd
      = if rows.any (fun r => rowGet (zipRecord h r) key == value) then
          Except.ok (serializeFile h (rows.map (fun r =>
            if rowGet (zipRecord h r) key == value then mergeVals h r nd else r)), true)
        else Except.ok (serializeFile h rows, false)) ∧
    (∀ r ∈ rows, ¬(rowGet (zipRecord h r) key = value) →
      (if rowGet (zipRecord h r) key == value then mergeVals h r nd else r) = r) ∧
    (∀ (r : List String) (i : Nat) (f v : String),
      r.length = h.length → h[i]? = Option.some f → r[i]? = Option.some v →
      dictGet nd f = Option.none → (mergeVals h r nd)[i]? = Option.some v) ∧
    (∀ (r : List String) (i : Nat) (f v u : String),
      r.length = h.length → h[i]? = Option.some f → r[i]? = Option.some v →
      dictGet nd f = Option.some u → (mergeVals h r nd)[i]? = Option.some u) := by
  have hr : ∀ r ∈ rows, r ≠ [] := by
    intro r hrm hnil
    have hlr := hlen r hrm
    rw [hnil] at hlr
    exact hh (List.eq_nil_of_length_eq_zero hlr.symm)
  refine ⟨?_, ?_, ?_, ?_⟩
  · simp only [update]
    rw [readRecords_serializeFile h rows hh hr, any_map_general, List.map_map]
    cases hA : rows.any (fun r => rowGet (zipRecord h r) key == value) with
    | true =>
      simp only [hA, if_true]
      have hrw : rewriteFile h (rows.map (fun r =>
          if rowGet (zipRecord h r) key == value then dictUpdate (zipRecord h r) nd
          else zipRecord h r))
          = Except.ok (serializeFile h (rows.map (fun r =>
              if rowGet (zipRecord h r) key == value then mergeVals h r nd else r))) := by
        apply rewriteFile_ok h _ _ rows
        intro r hrm
        by_cases hb : (rowGet (zipRecord h r) key == value) = true
        · rw [if_pos hb, if_pos hb]
          exact writeRecord_dictUpdate h r nd hnd (hlen r hrm) hndk
        · rw [if_neg hb, if_neg hb]
          exact writeRecord_zipRecord h r hnd (hlen r hrm)
      simp only [Function.comp_def]
      rw [hrw]
    | false =>
      simp only [hA, Bool.false_eq_true, if_false]
  · intro r _ hne
    rw [if_neg (fun hb => hne (by simpa using hb))]
  · intro r i f v hlr hf hv hdg
    rw [mergeVals_getElem h r nd i hlr, hf, hv]
    simp [hdg]
  · intro r i f v u hlr hf hv hdg
    rw [mergeVals_getElem h r nd i hlr, hf, hv]
    simp [hdg]

/-- C3 witness: updating `age` of the record with `name = "ann"` in a
two-record store changes only that field of that record, leaves
`{"bob", "40"}` byte-identical, and returns true. -/
theorem C3_update_witness :
    (∀ q ∈ [("age", "31")], (["name", "age"] : List String).contains q.1 = true) ∧
    update ["name", "age"] (serializeFile ["name", "age"] [["ann", "30"], ["bob", "40"]])
        "name" (Option.some "ann") [("age", "31")]
      = Except.ok (serializeFile ["name", "age"] [["ann", "31"], ["bob", "40"]], true) ∧
    (mergeVals ["name", "age"] ["ann", "30"] [("age", "31")])[0]? = Option.some "ann" ∧
    (mergeVals ["name", "age"] ["ann", "30"] [("age", "31")])[1]? = Option.some "31" := by
  have hc := C3_update_frame ["name", "age"] [["ann", "30"], ["bob", "40"]]
    "name" (Option.some "ann") [("age", "31")]
    (by decide) (by decide) (by decide) (by decide)
  refine ⟨by decide, ?_, ?_, ?_⟩
  · exact hc.1.trans (by rfl)
  · exact hc.2.2.1 ["ann", "30"] 0 "name" "ann" (by decide) (by decide) (by decide) (by decide)
  · exact hc.2.2.2 ["ann", "30"] 1 "age" "30" "31" (by decide) (by decide) (by decide) (by decide)

end CSVDatabase
